import Mathlib

/-!
Verification of the partitioned sparse-matrix storage engine of kaic
(`kaic/matrix.py` and `kaic/plotting/hic_plotter.py`), via a shallow
embedding of the relevant classes:

* `RegionPairsTable`: partitioned edge store with buffered bulk ingestion
  (`_add_edge`, `_add_edge_from_tuple`, `_flush_table_edge_buffer`,
  `_get_partition_ix`, `_get_edge_table_tuple`, `_edges_iter`,
  `_edge_subset_rows_from_regions`, `_is_partition_covered`).
* `RegionMatrixContainer.matrix`: dense sub-matrix assembly with mirror
  writes, the bias step and the `mask_invalid` mask construction.
* `as_edge`: edge normalisation from heterogeneous inputs.
* `BufferedMatrix` (hic_plotter.py): prefetching cache with the
  all / fixed / relative buffering strategies.

Machine floats are modelled as `ℚ`, Python ints as `ℕ`/`ℤ` as appropriate.
Python dicts whose iteration order matters are modelled as insertion-ordered
association lists; `defaultdict(list)` appends create the key on demand.
-/

namespace Kaic

/-- Python's `bisect.bisect_right(breaks, x)`: for a sorted list this is the
number of elements `≤ x`, i.e. the insertion point to the right of `x`.
Used by `RegionPairsTable._get_partition_ix` (matrix.py line 714). -/
def bisect_right (breaks : List ℕ) (x : ℕ) : ℕ :=
  breaks.countP (fun b => b ≤ x)

theorem bisect_right_monotone (breaks : List ℕ) {x y : ℕ} (hxy : x ≤ y) :
    bisect_right breaks x ≤ bisect_right breaks y := by
  induction breaks with
  | nil => simp [bisect_right]
  | cons b t ih =>
    simp only [bisect_right, List.countP_cons] at *
    by_cases hb : b ≤ x
    · have hby : b ≤ y := le_trans hb hxy
      simp [hb, hby]
      omega
    · by_cases hby : b ≤ y <;> simp [hb, hby] <;> omega

/-- A stored edge-table row: the record built in `_add_edge`
(matrix.py lines 662-669), with columns `source`, `sink`, `weight`. -/
structure Record where
  source : ℕ
  sink : ℕ
  weight : ℚ
deriving DecidableEq

/-- An `Edge` object (matrix.py class `Edge`): `weight` is `none` when the
object was constructed without a `weight` attribute. -/
structure Edge where
  source : ℕ
  sink : ℕ
  weight : Option ℚ
deriving DecidableEq

/-- Schema default for a missing `weight` attribute: the PyTables
`Float64Col()` default `0.0` (`self._edge_field_defaults[name]`,
matrix.py line 667). -/
def edgeRecordWeight (e : Edge) : ℚ :=
  match e.weight with
  | some w => w
  | none => 0

/-- Key of an edge sub-table: `(source_partition, sink_partition)`. -/
abbrev TableKey := ℕ × ℕ

/-- Lookup in an insertion-ordered dict (`dict.__getitem__` returning
`none` for `KeyError`). -/
def assocGet (l : List (TableKey × List Record)) (k : TableKey) : Option (List Record) :=
  (l.find? (fun p => p.1 = k)).map Prod.snd

/-- Append `rs` to the list stored under `k`, creating the entry at the end
if absent. Models both `defaultdict(list)[k].append(...)` on the edge buffer
and `table.append(records)` with lazy creation of the sub-table. -/
def assocAppend (l : List (TableKey × List Record)) (k : TableKey) (rs : List Record) :
    List (TableKey × List Record) :=
  match l with
  | [] => [(k, rs)]
  | p :: t => if p.1 = k then (p.1, p.2 ++ rs) :: t else p :: assocAppend t k rs

/-- State of a `RegionPairsTable` (the parts relevant to edge storage):
regions are frozen (the session after `_flush_regions`), so `n_regions` and
`partition_breaks` are fixed. -/
structure PairsState where
  n_regions : ℕ
  partition_breaks : List ℕ
  edge_buffer : List (TableKey × List Record)
  edge_buffer_size : ℕ
  edge_table_dict : List (TableKey × List Record)
deriving DecidableEq

/-- Initial state: `__init__` creates the `(0, 0)` sub-table
(matrix.py line 516) and an empty buffer. -/
def initState (n_regions : ℕ) (breaks : List ℕ) (buf_size : ℕ) : PairsState :=
  { n_regions := n_regions
    partition_breaks := breaks
    edge_buffer := []
    edge_buffer_size := buf_size
    edge_table_dict := [((0, 0), [])] }

/-- `RegionPairsTable._get_partition_ix` (matrix.py lines 710-714). -/
def _get_partition_ix (st : PairsState) (region_ix : ℕ) : ℕ :=
  bisect_right st.partition_breaks region_ix

/-- `RegionPairsTable._get_edge_table_tuple` (matrix.py lines 644-651). -/
def _get_edge_table_tuple (st : PairsState) (source sink : ℕ) : TableKey :=
  let p := if source > sink then (sink, source) else (source, sink)
  (_get_partition_ix st p.1, _get_partition_ix st p.2)

/-- Total number of rows staged in the edge buffer:
`sum(len(records) for records in self._edge_buffer.values())`. -/
def bufferTotal (buf : List (TableKey × List Record)) : ℕ :=
  (buf.map (fun p => p.2.length)).sum

/-- `RegionPairsTable._flush_table_edge_buffer` (matrix.py lines 536-542):
append each buffered record list to its sub-table (creating the table if
absent), then clear the buffer. -/
def _flush_table_edge_buffer (st : PairsState) : PairsState :=
  { st with
    edge_table_dict := st.edge_buffer.foldl (fun t p => assocAppend t p.1 p.2) st.edge_table_dict
    edge_buffer := [] }

/-- `RegionPairsTable._add_edge_from_tuple` (matrix.py lines 690-702).
Note the source swaps its *local* `source`/`sink` names only to compute the
partition key; the record appended to the buffer is the tuple as given. -/
def _add_edge_from_tuple (st : PairsState) (r : Record) : PairsState :=
  let p := if r.source > r.sink then (r.sink, r.source) else (r.source, r.sink)
  let key := _get_edge_table_tuple st p.1 p.2
  let st := { st with edge_buffer := assocAppend st.edge_buffer key [r] }
  if bufferTotal st.edge_buffer > st.edge_buffer_size then _flush_table_edge_buffer st else st

/-- `RegionPairsTable._add_edge` with `row=None` (matrix.py lines 653-671):
canonicalise `(source, sink)` to `(min, max)`, build the record with field
defaults, and hand it to `_add_edge_from_tuple`. -/
def _add_edge (st : PairsState) (e : Edge) : PairsState :=
  let p := if e.source > e.sink then (e.sink, e.source) else (e.source, e.sink)
  let record : Record := { source := p.1, sink := p.2, weight := edgeRecordWeight e }
  _add_edge_from_tuple st record

/-- `RegionPairsContainer.add_edge` (matrix.py lines 264-282) for an already
normalised edge: the `check_nodes_exist` bound check raises `ValueError`. -/
def add_edge (st : PairsState) (e : Edge) (check_nodes_exist : Bool) : Except String PairsState :=
  if check_nodes_exist ∧ (e.source ≥ st.n_regions ∨ e.sink ≥ st.n_regions) then
    .error "Node index exceeds number of nodes in object"
  else
    .ok (_add_edge st e)

/-- `RegionPairsTable._flush_edges` as it affects table contents
(matrix.py lines 549-563): flush the staged buffer if non-empty. -/
def _flush_edges (st : PairsState) : PairsState :=
  if st.edge_buffer.length > 0 then _flush_table_edge_buffer st else st

/-- A public mutating operation on the store. -/
inductive Op where
  | add (e : Edge)
  | flush
deriving DecidableEq

/-- Apply one public operation; a raised `ValueError` leaves the state
unchanged (the exception propagates before any mutation). -/
def applyOp (st : PairsState) (op : Op) : PairsState :=
  match op with
  | .add e =>
    match add_edge st e true with
    | .ok st2 => st2
    | .error _ => st
  | .flush => _flush_edges st

/-- Run a sequence of public operations. -/
def run (st : PairsState) (ops : List Op) : PairsState :=
  ops.foldl applyOp st

/-- The stored-edge invariant of one record under key `(i, j)`:
`s ≤ t`, `part(s) = i`, `part(t) = j` and `i ≤ j`. -/
def recordOK (breaks : List ℕ) (k : TableKey) (r : Record) : Prop :=
  r.source ≤ r.sink ∧ bisect_right breaks r.source = k.1 ∧
    bisect_right breaks r.sink = k.2 ∧ k.1 ≤ k.2

instance (breaks : List ℕ) (k : TableKey) (r : Record) : Decidable (recordOK breaks k r) := by
  unfold recordOK; infer_instance

/-- Every record of every entry of an ordered table/buffer dict satisfies
the stored-edge invariant. -/
def storeOK (breaks : List ℕ) (l : List (TableKey × List Record)) : Prop :=
  ∀ p ∈ l, ∀ r ∈ p.2, recordOK breaks p.1 r

instance (breaks : List ℕ) (l : List (TableKey × List Record)) : Decidable (storeOK breaks l) := by
  unfold storeOK; infer_instance

/-- Combined invariant of a `PairsState`: both the sub-tables and the
ingestion buffer hold only canonical, correctly partitioned records. -/
def stateOK (st : PairsState) : Prop :=
  storeOK st.partition_breaks st.edge_table_dict ∧ storeOK st.partition_breaks st.edge_buffer

/-- `RegionPairsTable._edges_iter` (matrix.py lines 801-806) at the row
level: for `0 ≤ i ≤ j ≤ |partition_breaks|` visit the sub-table `(i, j)`
when present and yield its rows. The ingestion buffer is not consulted. -/
def _edges_iter_rows (st : PairsState) : List Record :=
  (List.range (st.partition_breaks.length + 1)).flatMap (fun i =>
    (List.range' i (st.partition_breaks.length + 1 - i)).flatMap (fun j =>
      match assocGet st.edge_table_dict (i, j) with
      | some rows => rows
      | none => []))

/-- `RegionPairsContainer._min_max_region_ix` (matrix.py lines 244-250) on
region indices, with the source's initial values `(len(self.regions), 0)`. -/
def _min_max_region_ix (n_regions : ℕ) (ixs : List ℕ) : ℕ × ℕ :=
  ixs.foldl (fun mm ix => (min mm.1 ix, max mm.2 ix)) (n_regions, 0)

/-- `RegionPairsTable._is_partition_covered` (matrix.py lines 716-728).
`breaks[partition_ix]` falls back to `len(self.regions)` on `IndexError`;
`region_ix_end >= partition_end - 1` is rendered over ℕ as
`partition_end ≤ region_ix_end + 1` (the source computes it in ℤ). -/
def _is_partition_covered (st : PairsState) (partition_ix region_ix_start region_ix_end : ℕ) :
    Bool :=
  let partition_end := st.partition_breaks.getD partition_ix st.n_regions
  let partition_start := if partition_ix > 0 then st.partition_breaks.getD (partition_ix - 1) 0
    else 0
  decide (region_ix_start ≤ partition_start) && decide (partition_end ≤ region_ix_end + 1)

/-- One pytables `where` predicate of the planner (matrix.py lines 760-762):
`(lo1 - 1 < source) & (source < hi1 + 1) & (lo2 - 1 < sink) & (sink < hi2 + 1)`,
with the `±1` arithmetic done in ℤ as in the source. -/
def whereCondition (lo1 hi1 lo2 hi2 : ℕ) (r : Record) : Bool :=
  decide ((lo1 : ℤ) - 1 < (r.source : ℤ)) && decide ((r.source : ℤ) < (hi1 : ℤ) + 1) &&
    decide ((lo2 : ℤ) - 1 < (r.sink : ℤ)) && decide ((r.sink : ℤ) < (hi2 : ℤ) + 1)

/-- Modelled from the spec: `range_overlap` (kaic/tools/general.py) is code
of this repository that is not under src/. Per spec §4.4 the overlap of
`[r0, r1]` and `[c0, c1]` is `O = [max(r0, c0), min(r1, c1)]` when that
interval is non-empty, and absent otherwise. -/
def range_overlap (r0 r1 c0 c1 : ℕ) : Option (ℕ × ℕ) :=
  if max r0 c0 ≤ min r1 c1 then some (max r0 c0, min r1 c1) else none

/-- Body of the planner loop for one (already swapped) table key
(matrix.py lines 750-778): on the full-cover fast path stream the whole
sub-table; otherwise run the two predicate passes, suppressing rows of the
second pass whose `source` and `sink` both lie in the overlap. `none`
models the `KeyError` of `self._edge_table_dict[(i, j)]`. -/
def visitTable (st : PairsState) (row_start row_end col_start col_end : ℕ) (i j : ℕ) :
    Option (List Record) :=
  match assocGet st.edge_table_dict (i, j) with
  | none => none
  | some edge_table =>
    if _is_partition_covered st i row_start row_end &&
        _is_partition_covered st j col_start col_end then
      some edge_table
    else
      let condition1 := whereCondition row_start row_end col_start col_end
      let condition2 := whereCondition col_start col_end row_start row_end
      let conds := if row_start > col_start then (condition2, condition1)
        else (condition1, condition2)
      let overlap := range_overlap row_start row_end col_start col_end
      let pass1 := edge_table.filter conds.1
      let pass2 := edge_table.filter (fun r => conds.2 r &&
        !(match overlap with
          | some o => decide (o.1 ≤ r.source) && decide (r.source ≤ o.2) &&
              decide (o.1 ≤ r.sink) && decide (r.sink ≤ o.2)
          | none => false))
      some (pass1 ++ pass2)

/-- The planner's inner loop over `j` (matrix.py lines 747-778). The source
runs `i, j = j, i` when `j < i`, which mutates the *outer loop variable*
`i`, so a swap stays in effect for the remaining inner iterations. -/
def plannerInner (st : PairsState) (row_start row_end col_start col_end : ℕ) :
    ℕ → List ℕ → Option (List Record)
  | _, [] => some []
  | i, j :: rest =>
    let p := if j < i then (j, i) else (i, j)
    match visitTable st row_start row_end col_start col_end p.1 p.2 with
    | none => none
    | some rows =>
      match plannerInner st row_start row_end col_start col_end p.1 rest with
      | none => none
      | some more => some (rows ++ more)

/-- The planner's outer loop over `i` (matrix.py line 746); `i` is rebound
from the range iterator at each outer iteration. -/
def plannerOuter (st : PairsState) (row_start row_end col_start col_end : ℕ)
    (js : List ℕ) : List ℕ → Option (List Record)
  | [] => some []
  | i :: rest =>
    match plannerInner st row_start row_end col_start col_end i js with
    | none => none
    | some rows =>
      match plannerOuter st row_start row_end col_start col_end js rest with
      | none => none
      | some more => some (rows ++ more)

/-- `RegionPairsTable._edge_subset_rows_from_regions` (matrix.py lines
737-778), taking the resolved row and column region index lists. -/
def _edge_subset_rows_from_regions (st : PairsState) (row_ixs col_ixs : List ℕ) :
    Option (List Record) :=
  let rowmm := _min_max_region_ix st.n_regions row_ixs
  let colmm := _min_max_region_ix st.n_regions col_ixs
  let row_partition_start := _get_partition_ix st rowmm.1
  let row_partition_end := _get_partition_ix st rowmm.2
  let col_partition_start := _get_partition_ix st colmm.1
  let col_partition_end := _get_partition_ix st colmm.2
  plannerOuter st rowmm.1 rowmm.2 colmm.1 colmm.2
    (List.range' col_partition_start (col_partition_end + 1 - col_partition_start))
    (List.range' row_partition_start (row_partition_end + 1 - row_partition_start))

/-- A genomic region as consumed by `RegionMatrixContainer.matrix`: its
dense index `ix` and the two normalisation attributes `bias` and `valid`. -/
structure Region where
  ix : ℕ
  bias : ℚ
  valid : Bool
deriving DecidableEq

/-- Fallback for `regions[0]` of an empty list (where the source would raise
`IndexError`; every use below has non-empty region lists). -/
def emptyRegion : Region := { ix := 0, bias := 1, valid := true }

/-- Point assignment on the dense value plane (`m[i, j] = w`). -/
def matWrite (m : ℕ → ℕ → ℚ) (i j : ℕ) (w : ℚ) (a b : ℕ) : ℚ :=
  if a = i ∧ b = j then w else m a b

/-- One iteration of the mirror-write loop of `matrix`
(matrix.py lines 411-420): write the entry at `(source - row_offset,
sink - col_offset)` and at the transposed position, each guarded by a
bounds check. -/
def writeEntry (M N : ℕ) (row_offset col_offset : ℤ) (m : ℕ → ℕ → ℚ)
    (e : ℕ × ℕ × ℚ) : ℕ → ℕ → ℚ :=
  let ir : ℤ := (e.1 : ℤ) - row_offset
  let jr : ℤ := (e.2.1 : ℤ) - col_offset
  let m1 := if 0 ≤ ir ∧ ir < (M : ℤ) ∧ 0 ≤ jr ∧ jr < (N : ℤ) then
    matWrite m ir.toNat jr.toNat e.2.2 else m
  let ir2 : ℤ := (e.2.1 : ℤ) - row_offset
  let jr2 : ℤ := (e.1 : ℤ) - col_offset
  if 0 ≤ ir2 ∧ ir2 < (M : ℤ) ∧ 0 ≤ jr2 ∧ jr2 < (N : ℤ) then
    matWrite m1 ir2.toNat jr2.toNat e.2.2 else m1

/-- Value plane of `RegionMatrixContainer.matrix` (matrix.py lines 401-423):
fill an `M × N` plane with the default value and apply the mirror writes for
each `(source, sink, weight)` entry. The bias step on line 423,
`m / row_biases[:, None] / col_biases`, computes a quotient array that is
discarded, so the returned values are not bias-normalised. -/
def matrixValues (row_regions col_regions : List Region)
    (entries : List (ℕ × ℕ × ℚ)) (default_value : ℚ) : ℕ → ℕ → ℚ :=
  let row_offset : ℤ := ((row_regions.headD emptyRegion).ix : ℤ)
  let col_offset : ℤ := ((col_regions.headD emptyRegion).ix : ℤ)
  entries.foldl (writeEntry row_regions.length col_regions.length row_offset col_offset)
    (fun _ _ => default_value)

/-- Whole-row assignment on the boolean mask: `mask[k] = True` on a 2-D
numpy array assigns the entire axis-0 slice `k`. -/
def setRow (mask : ℕ → ℕ → Bool) (k : ℕ) (a b : ℕ) : Bool :=
  if a = k then true else mask a b

/-- One pass of the `mask_invalid` loop (matrix.py lines 427-435): for each
invalid region assign `mask[region.ix - - offset] = True`, i.e. axis-0
index `region.ix + offset`, bounded by `M = mask.shape[0]`; `none` models
the `IndexError` of an out-of-bounds assignment. -/
def maskPass (M offset : ℕ) (regions : List Region) (mask : ℕ → ℕ → Bool) :
    Option (ℕ → ℕ → Bool) :=
  match regions with
  | [] => some mask
  | r :: rest =>
    if r.valid then maskPass M offset rest mask
    else
      let k := r.ix + offset
      if k < M then maskPass M offset rest (setRow mask k) else none

/-- The boolean mask built by `matrix` when `mask_invalid` is set
(matrix.py lines 425-437): the row-region pass, then the column-region
pass — which likewise assigns `mask[col_region.ix - - col_offset]`, an
axis-0 (whole-row) index. -/
def mask_invalid_mask (row_regions col_regions : List Region) :
    Option (ℕ → ℕ → Bool) :=
  let M := row_regions.length
  let row_offset := (row_regions.headD emptyRegion).ix
  let col_offset := (col_regions.headD emptyRegion).ix
  match maskPass M row_offset row_regions (fun _ _ => false) with
  | none => none
  | some mask => maskPass M col_offset col_regions mask

/-- Input shapes accepted by `as_edge` (matrix.py lines 167-206), one
constructor per branch of its try/except cascade:
`edgeObj` — an `Edge` instance (line 168);
`mapping` — a dict tried as `Edge(**edge)` (line 172), `source`/`sink`
possibly absent;
`regionTuple` — a tuple whose first two items are `GenomicRegion`s
(lines 176-184), with an optional third item as weight;
`seq` — a generic indexable sequence of region indices (lines 186-195);
`obj` — any other object carrying `source`/`sink` attributes
(lines 197-203). -/
inductive EdgeArg where
  | edgeObj (e : Edge)
  | mapping (source sink : Option ℕ) (weight : Option ℚ)
  | regionTuple (r1 r2 : Region) (weight : Option ℚ)
  | seq (xs : List ℕ)
  | obj (source sink : ℕ) (weight : Option ℚ)
deriving DecidableEq

/-- `as_edge` (matrix.py lines 167-206). A mapping without `source`/`sink`
raises (`Edge(**edge)` raises `TypeError`, caught, and the later `edge[0]`
raises an uncaught `KeyError`). A sequence of length `< 2` raises the final
`ValueError`: its `IndexError` is caught and the attribute branch fails.
A sequence `[s, t]` gets `weight = 1` from the `except IndexError` default
(line 191), not the schema default. -/
def as_edge (arg : EdgeArg) : Except String Edge :=
  match arg with
  | .edgeObj e => .ok e
  | .mapping (some s) (some t) w => .ok { source := s, sink := t, weight := w }
  | .mapping _ _ _ => .error "KeyError"
  | .regionTuple r1 r2 w => .ok { source := r1.ix, sink := r2.ix, weight := w }
  | .seq xs =>
    match xs.get? 0, xs.get? 1 with
    | some s, some t =>
      let weight : ℚ := match xs.get? 2 with
        | some v => (v : ℚ)
        | none => 1
      .ok { source := s, sink := t, weight := some weight }
    | _, _ => .error "not recognised as edge / contact"
  | .obj s t w => .ok { source := s, sink := t, weight := w }

/-- `_add_edge` when a pre-existing row handle is supplied
(matrix.py lines 672-685): `source`/`sink` are written canonically; other
numeric fields are replaced under `replace=True` and additively combined
otherwise; an edge without the attribute leaves the field unchanged. -/
def _add_edge_row (row : Record) (e : Edge) (replace : Bool) : Record :=
  let p := if e.source > e.sink then (e.sink, e.source) else (e.source, e.sink)
  let weight := match e.weight with
    | some v => if replace then v else row.weight + v
    | none => row.weight
  { source := p.1, sink := p.2, weight := weight }

/-- A genomic region key on one matrix axis (the external `GenomicRegion`,
reduced to the fields `BufferedMatrix` uses). `stop` renders the source's
`end` attribute, which is a Lean keyword. -/
structure GRegion where
  chromosome : String
  start : Option ℤ
  stop : Option ℤ
deriving DecidableEq

/-- Modelled from the spec: `GenomicRegion.contains` belongs to the external
`genomic_regions` package (an out-of-scope collaborator per spec §1). Per
§4.6 the cache is hit when the buffered region contains the query
element-wise on each axis; an unbounded (`None`) buffered endpoint contains
everything on that side, and a bounded one contains no unbounded query. -/
def contains (rb rq : GRegion) : Bool :=
  let startOK : Bool := match rb.start, rq.start with
    | none, _ => true
    | some _, none => false
    | some a, some b => decide (a ≤ b)
  let stopOK : Bool := match rb.stop, rq.stop with
    | none, _ => true
    | some _, none => false
    | some a, some b => decide (b ≤ a)
  decide (rb.chromosome = rq.chromosome) && startOK && stopOK

/-- The value cached in `buffered_region`: the `"all"` sentinel string or
the per-axis list of buffered regions. -/
inductive BufRegion where
  | all
  | regions (rs : List GRegion)
deriving DecidableEq

/-- How `self.data` is indexed: `_buffer_all` uses a tuple of full slices
(`slice(0, None, None)` per axis), the other strategies a tuple of
`GenomicRegion`s. -/
inductive BufKey where
  | fullSlices (n : ℕ)
  | regionList (rs : List GRegion)
deriving DecidableEq

/-- `BufferedMatrix` (hic_plotter.py lines 45-192). `data` abstracts the
underlying container's `__getitem__`; `α` is its matrix type. -/
structure BufferedMatrix (α : Type) where
  data : BufKey → α
  buffering_strategy : String
  buffering_arg : ℤ
  buffered_region : Option BufRegion
  buffered_matrix : Option α

/-- The keys of `_BUFFERING_STRATEGIES` (hic_plotter.py lines 190-192). -/
def _BUFFERING_STRATEGIES : List String := ["all", "relative", "fixed"]

/-- `BufferedMatrix.__init__` (hic_plotter.py lines 56-79): a strategy
outside `_BUFFERING_STRATEGIES` raises `ValueError` before any buffer state
exists; otherwise the cache starts empty (`buffered_region` and
`buffered_matrix` both `None`). -/
def BufferedMatrix.init {α : Type} (data : BufKey → α) (buffering_strategy : String)
    (buffering_arg : ℤ) : Except String (BufferedMatrix α) :=
  if buffering_strategy ∈ _BUFFERING_STRATEGIES then
    .ok { data := data, buffering_strategy := buffering_strategy,
          buffering_arg := buffering_arg, buffered_region := none, buffered_matrix := none }
  else
    .error "Only support the buffering strategies [all, relative, fixed]"

/-- `BufferedMatrix.is_buffered_region` (hic_plotter.py lines 95-106):
false when nothing is buffered; true for the `"all"` sentinel; otherwise
element-wise containment over `izip(buffered_region, regions)`. -/
def is_buffered_region {α : Type} (bm : BufferedMatrix α) (regions : List GRegion) : Bool :=
  match bm.buffered_region, bm.buffered_matrix with
  | some br, some _ =>
    (match br with
     | .all => true
     | .regions rbs => (rbs.zip regions).all (fun p => contains p.1 p.2))
  | _, _ => false

/-- `BufferedMatrix._buffer_all` (hic_plotter.py lines 123-133). -/
def _buffer_all {α : Type} (bm : BufferedMatrix α) (regions : List GRegion) :
    BufferedMatrix α :=
  { bm with buffered_region := some .all,
            buffered_matrix := some (bm.data (.fullSlices regions.length)) }

/-- `BufferedMatrix._buffer_relative` (hic_plotter.py lines 135-152):
per fully-specified axis buffer `[max(1, start - L·arg), end + L·arg]` with
`L = end - start`; an open-ended axis buffers the whole chromosome. -/
def _buffer_relative {α : Type} (bm : BufferedMatrix α) (regions : List GRegion) :
    BufferedMatrix α :=
  let buffered := regions.map (fun rq =>
    match rq.start, rq.stop with
    | some s, some e =>
      let rq_size := e - s
      { chromosome := rq.chromosome,
        start := some (max 1 (s - rq_size * bm.buffering_arg)),
        stop := some (e + rq_size * bm.buffering_arg) }
    | _, _ => { chromosome := rq.chromosome, start := none, stop := none })
  { bm with buffered_region := some (.regions buffered),
            buffered_matrix := some (bm.data (.regionList buffered)) }

/-- `BufferedMatrix._buffer_fixed` (hic_plotter.py lines 154-170). -/
def _buffer_fixed {α : Type} (bm : BufferedMatrix α) (regions : List GRegion) :
    BufferedMatrix α :=
  let buffered := regions.map (fun rq =>
    match rq.start, rq.stop with
    | some s, some e =>
      { chromosome := rq.chromosome,
        start := some (max 1 (s - bm.buffering_arg)),
        stop := some (e + bm.buffering_arg) }
    | _, _ => { chromosome := rq.chromosome, start := none, stop := none })
  { bm with buffered_region := some (.regions buffered),
            buffered_matrix := some (bm.data (.regionList buffered)) }

/-- Strategy dispatch `self._BUFFERING_STRATEGIES[self.buffering_strategy]`
(hic_plotter.py line 120); the final branch is unreachable after `init`. -/
def bufferDispatch {α : Type} (bm : BufferedMatrix α) (regions : List GRegion) :
    BufferedMatrix α :=
  if bm.buffering_strategy = "all" then _buffer_all bm regions
  else if bm.buffering_strategy = "relative" then _buffer_relative bm regions
  else if bm.buffering_strategy = "fixed" then _buffer_fixed bm regions
  else bm

/-- `BufferedMatrix.get_matrix` (hic_plotter.py lines 108-121) as a state
transformer. The flag records whether the buffering strategy ran (a fetch
from `data`); in either case the caller receives
`self.buffered_matrix[tuple(regions)]`, a slice of the cached matrix. -/
def get_matrix {α : Type} (bm : BufferedMatrix α) (regions : List GRegion) :
    BufferedMatrix α × Bool :=
  let regions := regions.reverse
  if is_buffered_region bm regions then (bm, false)
  else (bufferDispatch bm regions, true)

/-- Concrete store of spec §8 end-to-end scenario 1: three regions, breaks
`[2]`, edges `(0,1,5.0), (1,2,3.0), (0,2,1.0)` added and flushed. -/
def plannerState : PairsState :=
  run (initState 3 [2] 1000000)
    [.add ⟨0, 1, some 5⟩, .add ⟨1, 2, some 3⟩, .add ⟨0, 2, some 1⟩, .flush]

/-- A store holding one edge still in the ingestion buffer (added via
`add_edge`, which does not flush). -/
def unflushedState : PairsState := run (initState 2 [] 1000000) [.add ⟨0, 1, some 5⟩]

/-- A store after inserting the same `(0, 1)` pair twice and flushing. -/
def dupInsertState : PairsState :=
  run (initState 2 [] 1000000) [.add ⟨0, 1, some 5⟩, .add ⟨0, 1, some 7⟩, .flush]

/-- The regions of spec §8 end-to-end scenario 3: biases `1.0, 2.0, 0.5`. -/
def e2eRegions : List Region := [⟨0, 1, true⟩, ⟨1, 2, true⟩, ⟨2, 1/2, true⟩]

/-- Three regions, all biases `1.0`, region 2 invalid (scenario 6). -/
def invalid2Regions : List Region := [⟨0, 1, true⟩, ⟨1, 1, true⟩, ⟨2, 1, false⟩]

/-- A two-region window starting at region index 1, whose first region is
invalid (a subset query with a non-zero row offset). -/
def offsetRegions : List Region := [⟨1, 1, false⟩, ⟨2, 1, true⟩]

/-- Appending records that satisfy the invariant at key `k` preserves the
store invariant. -/
theorem assocAppend_storeOK {breaks : List ℕ} {k : TableKey} {rs : List Record} :
    ∀ {l : List (TableKey × List Record)}, storeOK breaks l →
      (∀ r ∈ rs, recordOK breaks k r) → storeOK breaks (assocAppend l k rs) := by
  intro l
  induction l with
  | nil =>
    intro _ hrs p hp r hr
    simp only [assocAppend, List.mem_singleton] at hp
    subst hp
    exact hrs r hr
  | cons q t ih =>
    intro hl hrs p hp r hr
    simp only [assocAppend] at hp
    split at hp
    case isTrue hq =>
      rcases List.mem_cons.mp hp with hp | hp
      · subst hp
        rcases List.mem_append.mp hr with hr' | hr'
        · exact hl q (List.mem_cons_self _ _) r hr'
        · have := hrs r hr'
          simpa [hq] using this
      · exact hl p (List.mem_cons_of_mem _ hp) r hr
    case isFalse hq =>
      rcases List.mem_cons.mp hp with hp | hp
      · subst hp
        exact hl _ (List.mem_cons_self _ _) r hr
      · exact ih (fun p' hp' r' hr' => hl p' (List.mem_cons_of_mem _ hp') r' hr') hrs p hp r hr

/-- Folding a buffer whose entries satisfy the invariant into tables that
satisfy it yields tables that satisfy it. -/
theorem foldl_assocAppend_storeOK {breaks : List ℕ} :
    ∀ (buf t : List (TableKey × List Record)), storeOK breaks buf → storeOK breaks t →
      storeOK breaks (buf.foldl (fun acc p => assocAppend acc p.1 p.2) t) := by
  intro buf
  induction buf with
  | nil => exact fun t _ ht => ht
  | cons q rest ih =>
    intro t hb ht
    simp only [List.foldl_cons]
    exact ih _ (fun p hp r hr => hb p (List.mem_cons_of_mem _ hp) r hr)
      (assocAppend_storeOK ht (hb q (List.mem_cons_self _ _)))

theorem _flush_table_edge_buffer_stateOK {st : PairsState} (h : stateOK st) :
    stateOK (_flush_table_edge_buffer st) := by
  constructor
  · exact foldl_assocAppend_storeOK st.edge_buffer st.edge_table_dict h.2 h.1
  · intro p hp
    simp [_flush_table_edge_buffer] at hp

theorem _add_edge_from_tuple_stateOK {st : PairsState} (h : stateOK st) {r : Record}
    (hr : r.source ≤ r.sink) : stateOK (_add_edge_from_tuple st r) := by
  have hnotgt : ¬ r.source > r.sink := not_lt.mpr hr
  have hkey : recordOK st.partition_breaks (_get_edge_table_tuple st r.source r.sink) r := by
    unfold _get_edge_table_tuple
    rw [if_neg hnotgt]
    exact ⟨hr, rfl, rfl, bisect_right_monotone _ hr⟩
  have hbuf : storeOK st.partition_breaks
      (assocAppend st.edge_buffer (_get_edge_table_tuple st r.source r.sink) [r]) := by
    refine assocAppend_storeOK h.2 ?_
    intro r' hr'
    simp only [List.mem_singleton] at hr'
    subst hr'
    exact hkey
  unfold _add_edge_from_tuple
  rw [if_neg hnotgt]
  dsimp only
  split
  · exact _flush_table_edge_buffer_stateOK ⟨h.1, hbuf⟩
  · exact ⟨h.1, hbuf⟩

theorem applyOp_stateOK {st : PairsState} (h : stateOK st) (op : Op) :
    stateOK (applyOp st op) := by
  cases op with
  | flush =>
    simp only [applyOp, _flush_edges]
    split
    · exact _flush_table_edge_buffer_stateOK h
    · exact h
  | add e =>
    simp only [applyOp, add_edge, true_and]
    by_cases hc : (e.source ≥ st.n_regions ∨ e.sink ≥ st.n_regions)
    · rw [if_pos hc]
      exact h
    · rw [if_neg hc]
      show stateOK (_add_edge st e)
      unfold _add_edge
      dsimp only
      by_cases hgt : e.source > e.sink
      · simp only [if_pos hgt]
        exact _add_edge_from_tuple_stateOK h (show e.sink ≤ e.source by omega)
      · simp only [if_neg hgt]
        exact _add_edge_from_tuple_stateOK h (show e.source ≤ e.sink by omega)

theorem applyOp_partition_breaks (st : PairsState) (op : Op) :
    (applyOp st op).partition_breaks = st.partition_breaks := by
  cases op with
  | flush =>
    simp only [applyOp, _flush_edges]
    split <;> rfl
  | add e =>
    simp only [applyOp, add_edge, true_and]
    by_cases hc : (e.source ≥ st.n_regions ∨ e.sink ≥ st.n_regions)
    · rw [if_pos hc]
    · rw [if_neg hc]
      show (_add_edge st e).partition_breaks = st.partition_breaks
      unfold _add_edge _add_edge_from_tuple
      dsimp only
      repeat' split
      all_goals rfl

theorem run_stateOK : ∀ (ops : List Op) (st : PairsState), stateOK st → stateOK (run st ops) := by
  intro ops
  induction ops with
  | nil => exact fun st h => h
  | cons op rest ih =>
    intro st h
    exact ih (applyOp st op) (applyOp_stateOK h op)

theorem run_partition_breaks : ∀ (ops : List Op) (st : PairsState),
    (run st ops).partition_breaks = st.partition_breaks := by
  intro ops
  induction ops with
  | nil => exact fun st => rfl
  | cons op rest ih =>
    intro st
    rw [run, List.foldl_cons, ← run, ih, applyOp_partition_breaks]

/-- **C3**: after every public operation, every stored edge `(s, t)` in
sub-table `(i, j)` satisfies `s ≤ t`, `part(s) = i`, `part(t) = j` and
`i ≤ j`, where `part` is the `bisect_right` position in the strictly
increasing partition-break vector; `add_edge` canonicalises each input pair
to `(min, max)` before buffering, so the invariant also holds for every
buffered record. (The sortedness hypothesis is part of the claim's setting;
the proof holds for any break vector since `countP` is monotone.) -/
theorem stored_edges_canonical_and_partitioned (n_regions buf_size : ℕ) (breaks : List ℕ)
    (_hs : breaks.Chain' (· < ·)) (ops : List Op) :
    storeOK breaks (run (initState n_regions breaks buf_size) ops).edge_table_dict ∧
      storeOK breaks (run (initState n_regions breaks buf_size) ops).edge_buffer := by
  have h0 : stateOK (initState n_regions breaks buf_size) := by
    constructor
    · intro p hp r hr
      simp only [initState, List.mem_singleton] at hp
      subst hp
      simp at hr
    · intro p hp
      simp [initState] at hp
  obtain ⟨h1, h2⟩ := run_stateOK ops _ h0
  have hb := run_partition_breaks ops (initState n_regions breaks buf_size)
  rw [hb] at h1 h2
  exact ⟨h1, h2⟩

/-- Witness for C3: a strictly increasing break vector, one reversed-pair
insertion and a flush. -/
theorem stored_edges_canonical_witness :
    ([2] : List ℕ).Chain' (· < ·) ∧
      (storeOK [2] (run (initState 3 [2] 1000000)
          [.add ⟨2, 0, some 5⟩, .flush]).edge_table_dict ∧
        storeOK [2] (run (initState 3 [2] 1000000)
          [.add ⟨2, 0, some 5⟩, .flush]).edge_buffer) :=
  ⟨List.chain'_singleton 2, stored_edges_canonical_and_partitioned 3 1000000 [2]
    (List.chain'_singleton 2) [.add ⟨2, 0, some 5⟩, .flush]⟩

/-- **C6** (counterexample): inserting the `(0, 1)` pair twice via
`add_edge` with default settings and flushing stores TWO rows with the
original weights — not a single row with the summed weight. -/
theorem duplicate_insert_stores_two_rows :
    assocGet dupInsertState.edge_table_dict (0, 0) = some [⟨0, 1, 5⟩, ⟨0, 1, 7⟩] ∧
      (assocGet dupInsertState.edge_table_dict (0, 0)).map List.length ≠ some 1 := by
  decide

/-- **C6** (amended): with default settings (no row handle, `replace`
unset) duplicate insertion appends one row per insertion, in order, each
keeping its own weight; weights are additively combined only on the
row-handle update path of `_add_edge` with `replace` unset. -/
theorem duplicate_insert_appends_rows (w1 w2 : ℚ) :
    assocGet (run (initState 2 [] 1000000)
        [.add ⟨0, 1, some w1⟩, .add ⟨0, 1, some w2⟩, .flush]).edge_table_dict (0, 0) =
      some [⟨0, 1, w1⟩, ⟨0, 1, w2⟩] ∧
      _add_edge_row ⟨0, 1, 5⟩ ⟨0, 1, some 7⟩ false = ⟨0, 1, 12⟩ := by
  constructor
  · rfl
  · simp only [_add_edge_row]
    norm_num

/-- **C5** (counterexample): with an edge still in the ingestion buffer,
edge iteration yields nothing: the read traverses sub-table rows without
first flushing the buffer, so it does not reflect the inserted edge. -/
theorem read_misses_buffered_edge :
    unflushedState.edge_buffer ≠ [] ∧ _edges_iter_rows unflushedState = [] := by
  decide

theorem plannerInner_buffer_insensitive (st : PairsState) (a b c d : ℕ) :
    ∀ (i : ℕ) (js : List ℕ), plannerInner { st with edge_buffer := [] } a b c d i js =
      plannerInner st a b c d i js := by
  intro i js
  induction js generalizing i with
  | nil => rfl
  | cons j rest ih =>
    have hv : ∀ x y, visitTable { st with edge_buffer := [] } a b c d x y =
        visitTable st a b c d x y := fun x y => rfl
    simp only [plannerInner]
    rw [hv, ih]

theorem plannerOuter_buffer_insensitive (st : PairsState) (a b c d : ℕ) (js : List ℕ) :
    ∀ is : List ℕ, plannerOuter { st with edge_buffer := [] } a b c d js is =
      plannerOuter st a b c d js is := by
  intro is
  induction is with
  | nil => rfl
  | cons i rest ih =>
    simp only [plannerOuter]
    rw [plannerInner_buffer_insensitive st a b c d, ih]

theorem _edge_subset_rows_buffer_insensitive (st : PairsState) (row_ixs col_ixs : List ℕ) :
    _edge_subset_rows_from_regions { st with edge_buffer := [] } row_ixs col_ixs =
      _edge_subset_rows_from_regions st row_ixs col_ixs := by
  unfold _edge_subset_rows_from_regions
  exact plannerOuter_buffer_insensitive st _ _ _ _ _ _

/-- **C5** (amended): reads do not flush the ingestion buffer — both edge
iteration and edge-subset queries traverse only sub-table rows and are
insensitive to the buffer contents — and the buffer is emptied only by a
flush: an explicit `flush()` or the end of `add_edges` (both run
`_flush_edges`, making the buffered edge visible and the buffer empty), or
an insertion that pushes the staged row count over the buffer size (here
`_edge_buffer_size = 0`, flushed inside `_add_edge_from_tuple`). -/
theorem reads_traverse_tables_only (st : PairsState) (row_ixs col_ixs : List ℕ) :
    (_edges_iter_rows st = _edges_iter_rows { st with edge_buffer := [] } ∧
      _edge_subset_rows_from_regions st row_ixs col_ixs =
        _edge_subset_rows_from_regions { st with edge_buffer := [] } row_ixs col_ixs) ∧
      (_edges_iter_rows (_flush_edges unflushedState) = [⟨0, 1, 5⟩] ∧
        (_flush_edges unflushedState).edge_buffer = []) ∧
      ((run (initState 2 [] 0) [.add ⟨0, 1, some 5⟩]).edge_buffer = [] ∧
        _edges_iter_rows (run (initState 2 [] 0) [.add ⟨0, 1, some 5⟩]) = [⟨0, 1, 5⟩]) :=
  ⟨⟨rfl, (_edge_subset_rows_buffer_insensitive st row_ixs col_ixs).symm⟩,
   ⟨by rfl, by rfl⟩, ⟨by rfl, by rfl⟩⟩

/-- **C2** (code-bug evaluation): on the spec's three-region store the full
`[0..2] × [0..2]` query yields seven rows — the `(0, 1)` sub-table is
streamed three times because `i, j = j, i` in the inner loop mutates the
outer loop variable (and `(1, 1)` is never visited) — instead of each
stored edge exactly once. -/
theorem planner_yields_duplicate_rows :
    _edge_subset_rows_from_regions plannerState [0, 1, 2] [0, 1, 2] =
      some [⟨0, 1, 5⟩, ⟨1, 2, 3⟩, ⟨0, 2, 1⟩, ⟨1, 2, 3⟩, ⟨0, 2, 1⟩, ⟨1, 2, 3⟩, ⟨0, 2, 1⟩] ∧
      (_edge_subset_rows_from_regions plannerState [0, 1, 2] [0, 1, 2]).map
        (fun rows => rows.count ⟨1, 2, 3⟩) = some 3 := by
  decide

/-- **C1** (code-bug evaluation): with biases `1.0, 2.0, 0.5`,
`matrix()[0][1]` is the raw mirrored weight `5`, not `5 / (1 · 2) = 2.5`:
the bias quotient of matrix.py line 423 is computed and discarded. -/
theorem matrix_entry_not_bias_normalised :
    matrixValues e2eRegions e2eRegions [(0, 1, 5), (1, 2, 3), (0, 2, 1)] 0 0 1 = 5 ∧
      matrixValues e2eRegions e2eRegions [(0, 1, 5), (1, 2, 3), (0, 2, 1)] 0 0 1 ≠
        5 / (1 * 2) := by
  have h5 : matrixValues e2eRegions e2eRegions [(0, 1, 5), (1, 2, 3), (0, 2, 1)] 0 0 1 = 5 := by
    decide
  refine ⟨h5, ?_⟩
  rw [h5]
  norm_num

/-- **C4** (code-bug evaluation): with region 2 invalid under a full-key
query, row 2 is masked but entry `(0, 2)` — a valid row in the invalid
column — stays unmasked, because the column pass also assigns an axis-0
(row) index; and on a window starting at region index 1 whose first region
is invalid, the flipped offset `ix - - offset` indexes out of bounds
(`IndexError`), instead of masking row 0. -/
theorem mask_invalid_not_column_masked :
    (mask_invalid_mask invalid2Regions invalid2Regions).map
        (fun mask => (mask 2 0, mask 2 2, mask 0 2, mask 1 2)) =
      some (true, true, false, false) ∧
      mask_invalid_mask offsetRegions offsetRegions = none := by
  constructor
  · decide
  · rfl

theorem matWrite_pair_symm (m : ℕ → ℕ → ℚ) (hm : ∀ a b, m a b = m b a) (i j : ℕ) (w : ℚ)
    (a b : ℕ) :
    matWrite (matWrite m i j w) j i w a b = matWrite (matWrite m i j w) j i w b a := by
  unfold matWrite
  by_cases hP : a = j ∧ b = i <;> by_cases hQ : a = i ∧ b = j
  · rw [if_pos hP, if_pos ⟨hQ.2, hQ.1⟩]
  · rw [if_pos hP, if_neg (fun h => hQ ⟨h.2, h.1⟩), if_pos ⟨hP.2, hP.1⟩]
  · rw [if_neg hP, if_pos hQ, if_pos ⟨hQ.2, hQ.1⟩]
  · rw [if_neg hP, if_neg hQ, if_neg (fun h => hQ ⟨h.2, h.1⟩), if_neg (fun h => hP ⟨h.2, h.1⟩)]
    exact hm a b

theorem writeEntry_symm (M : ℕ) (o : ℤ) (m : ℕ → ℕ → ℚ) (hm : ∀ a b, m a b = m b a)
    (e : ℕ × ℕ × ℚ) (a b : ℕ) :
    writeEntry M M o o m e a b = writeEntry M M o o m e b a := by
  obtain ⟨s, t, w⟩ := e
  unfold writeEntry
  dsimp only
  by_cases hc : 0 ≤ (s : ℤ) - o ∧ (s : ℤ) - o < (M : ℤ) ∧ 0 ≤ (t : ℤ) - o ∧ (t : ℤ) - o < (M : ℤ)
  · have hc2 : 0 ≤ (t : ℤ) - o ∧ (t : ℤ) - o < (M : ℤ) ∧ 0 ≤ (s : ℤ) - o ∧
        (s : ℤ) - o < (M : ℤ) := ⟨hc.2.2.1, hc.2.2.2, hc.1, hc.2.1⟩
    rw [if_pos hc, if_pos hc2]
    exact matWrite_pair_symm m hm _ _ w a b
  · have hc2 : ¬(0 ≤ (t : ℤ) - o ∧ (t : ℤ) - o < (M : ℤ) ∧ 0 ≤ (s : ℤ) - o ∧
        (s : ℤ) - o < (M : ℤ)) := fun h => hc ⟨h.2.2.1, h.2.2.2, h.1, h.2.1⟩
    rw [if_neg hc, if_neg hc2]
    exact hm a b

theorem foldl_writeEntry_symm (M : ℕ) (o : ℤ) :
    ∀ (entries : List (ℕ × ℕ × ℚ)) (m : ℕ → ℕ → ℚ), (∀ a b, m a b = m b a) →
      ∀ a b, entries.foldl (writeEntry M M o o) m a b =
        entries.foldl (writeEntry M M o o) m b a := by
  intro entries
  induction entries with
  | nil => exact fun m hm => hm
  | cons e rest ih =>
    intro m hm a b
    simp only [List.foldl_cons]
    exact ih _ (writeEntry_symm M o m hm e) a b

/-- **C7**: for identical row and column region lists the materialised
value plane is symmetric: both offsets and both dimensions coincide, so for
each edge the mirror writes at `(s - r0, t - c0)` and `(t - r0, s - c0)`
are guarded by equivalent bounds checks and write equal values, and the two
writes coincide on the diagonal. -/
theorem matrix_symmetric_on_identical_axes (regions : List Region)
    (entries : List (ℕ × ℕ × ℚ)) (default_value : ℚ) (a b : ℕ) :
    matrixValues regions regions entries default_value a b =
      matrixValues regions regions entries default_value b a := by
  unfold matrixValues
  exact foldl_writeEntry_symm regions.length ((regions.headD emptyRegion).ix : ℤ)
    entries (fun _ _ => default_value) (fun _ _ => rfl) a b

/-- **C9**: `as_edge` on a two-element sequence `(source, sink)` builds an
edge carrying `weight = 1` (the `except IndexError` default of line 191),
while a missing `weight` attribute elsewhere is stored as the
schema-declared default `0.0`. -/
theorem pair_sequence_weight_is_one (s t : ℕ) :
    as_edge (.seq [s, t]) = .ok { source := s, sink := t, weight := some 1 } ∧
      edgeRecordWeight { source := s, sink := t, weight := none } = 0 :=
  ⟨rfl, rfl⟩

/-- **C8**: under strategy `relative(1)` the query `[100, 200]` prefetches
`[max(1, start - L), end + L] = [1, 300]` (clamped below at 1), and any
subsequent query whose per-axis regions are contained in the buffered
regions is answered by slicing the cached matrix with no fetch from the
underlying data and no state change. -/
theorem relative_buffering_prefetch_and_cache_hit {α : Type} (data : BufKey → α) :
    (∀ (bm : BufferedMatrix α) (regions : List GRegion),
        is_buffered_region bm regions.reverse = true → get_matrix bm regions = (bm, false)) ∧
    (∃ bm0 : BufferedMatrix α, BufferedMatrix.init data "relative" 1 = .ok bm0 ∧
      (get_matrix bm0 [⟨"chr1", some 100, some 200⟩]).2 = true ∧
      (get_matrix bm0 [⟨"chr1", some 100, some 200⟩]).1.buffered_region =
        some (.regions [⟨"chr1", some 1, some 300⟩]) ∧
      get_matrix (get_matrix bm0 [⟨"chr1", some 100, some 200⟩]).1
          [⟨"chr1", some 150, some 180⟩] =
        ((get_matrix bm0 [⟨"chr1", some 100, some 200⟩]).1, false)) := by
  constructor
  · intro bm regions h
    simp only [get_matrix]
    rw [if_pos h]
  · exact ⟨_, rfl, rfl, rfl, rfl⟩

/-- Witness for C8: a concretely buffered `[1, 300]` state serves the
contained query `[150, 180]` from the cache with no fetch. -/
theorem relative_buffering_witness :
    get_matrix (BufferedMatrix.mk (fun _ => (() : Unit)) "relative" 1
        (some (.regions [⟨"chr1", some 1, some 300⟩])) (some ()))
      [⟨"chr1", some 150, some 180⟩] =
    (BufferedMatrix.mk (fun _ => (() : Unit)) "relative" 1
        (some (.regions [⟨"chr1", some 1, some 300⟩])) (some ()), false) :=
  (relative_buffering_prefetch_and_cache_hit (fun _ => ())).1 _ _ (by rfl)

/-- **C10**: `BufferedMatrix.__init__` raises `ValueError` for a strategy
other than all / fixed / relative, leaving no buffer state; each valid
strategy constructs successfully with `buffered_region` and
`buffered_matrix` both `None`. -/
theorem init_strategy_validation {α : Type} (data : BufKey → α) (arg : ℤ) (s : String) :
    (s ∉ _BUFFERING_STRATEGIES → BufferedMatrix.init data s arg =
      .error "Only support the buffering strategies [all, relative, fixed]") ∧
    (s ∈ _BUFFERING_STRATEGIES → ∃ bm : BufferedMatrix α,
      BufferedMatrix.init data s arg = .ok bm ∧ bm.buffered_region = none ∧
        bm.buffered_matrix = none) := by
  constructor
  · intro h
    unfold BufferedMatrix.init
    rw [if_neg h]
  · intro h
    exact ⟨{ data := data, buffering_strategy := s, buffering_arg := arg,
             buffered_region := none, buffered_matrix := none },
           by unfold BufferedMatrix.init; rw [if_pos h], rfl, rfl⟩

/-- Witness for C10 at the invalid strategy `"bogus"` and the valid
strategy `"relative"`. -/
theorem init_strategy_validation_witness :
    BufferedMatrix.init (fun _ => (() : Unit)) "bogus" 1 =
        .error "Only support the buffering strategies [all, relative, fixed]" ∧
      (∃ bm : BufferedMatrix Unit, BufferedMatrix.init (fun _ => ()) "relative" 1 = .ok bm ∧
        bm.buffered_region = none ∧ bm.buffered_matrix = none) :=
  ⟨(init_strategy_validation (fun _ => ()) 1 "bogus").1 (by decide),
   (init_strategy_validation (fun _ => ()) 1 "relative").2 (by decide)⟩

end Kaic
